import Mathlib

/-!
Shallow embedding of the overlay data model and operation-based edit-history
engine of the roxy-dbc repository (src/dbc.rs, src/edit_history.rs,
src/edit_history_integration.rs), together with proofs settling the
specification claims about them.

Conventions of the embedding:
* Rust `HashMap<K, V>` is modelled as an association list `Map K V` with
  canonical last-write insertion (`remove` then append).  Structural equality
  of such lists implies `HashMap` equality (same key/value set); claimed
  inequalities are always witnessed through `lookup`/`contains` observations,
  which are valid for any map representation.
* Rust `HashSet<K>` is modelled as a duplicate-free list `SetL K`.
* `u32`/`u64`/`u8` fields carry no arithmetic in the modelled code, so they
  are modelled as `Nat`; the only width-sensitive point is the checked
  `u64 -> u8` conversion in `get_message_size` / `MessageOverride.from_message`,
  whose panic is modelled as `Option.none`.
* `f64` fields are only stored and moved, never computed with, so they are
  modelled as an opaque bit pattern `F64`.
* In-place mutation returning `Result<(), String>` is modelled as a function
  returning `Option String × State`: the state component is the content of the
  mutable reference after the call (also on error, where Rust leaves the
  partially mutated state in place), and the first component is the error, if
  any.
-/

namespace RoxyDbc

/-- Association-list model of `HashMap`.  Only the operations used by the
modelled code are provided. -/
abbrev Map (α β : Type) : Type := List (α × β)

namespace Map

variable {α β : Type} [DecidableEq α]

/-- `HashMap::get`. -/
def lookup (k : α) : Map α β → Option β
  | [] => none
  | (k', v) :: t => if k = k' then some v else lookup k t

/-- `HashMap::remove` (keeps everything whose key differs from `k`). -/
def remove (k : α) (m : Map α β) : Map α β :=
  m.filter (fun p => p.1 ≠ k)

/-- `HashMap::insert`, in canonical last-write form. -/
def insert (k : α) (v : β) (m : Map α β) : Map α β :=
  remove k m ++ [(k, v)]

/-- `HashMap::contains_key`. -/
def contains (k : α) (m : Map α β) : Bool :=
  (lookup k m).isSome

/-- `HashMap::is_empty`. -/
def isEmpty (m : Map α β) : Bool :=
  List.isEmpty m

@[simp] theorem lookup_nil (k : α) : lookup k ([] : Map α β) = none := rfl

@[simp] theorem remove_nil (k : α) : remove k ([] : Map α β) = [] := rfl

@[simp] theorem remove_append (k : α) (m₁ m₂ : Map α β) :
    remove k (m₁ ++ m₂) = remove k m₁ ++ remove k m₂ := by
  simp [remove]

@[simp] theorem remove_singleton_self (k : α) (v : β) :
    remove k ([(k, v)] : Map α β) = [] := by
  simp [remove, List.filter_cons]

@[simp] theorem remove_remove (k : α) (m : Map α β) :
    remove k (remove k m) = remove k m := by
  simp [remove, List.filter_filter]

@[simp] theorem remove_insert_self (k : α) (v : β) (m : Map α β) :
    remove k (insert k v m) = remove k m := by
  simp [insert]

@[simp] theorem insert_insert_self (k : α) (v w : β) (m : Map α β) :
    insert k v (insert k w m) = insert k v m := by
  simp [insert]

@[simp] theorem insert_remove_self (k : α) (v : β) (m : Map α β) :
    insert k v (remove k m) = insert k v m := by
  simp [insert]

@[simp] theorem lookup_append (k : α) (m₁ m₂ : Map α β) :
    lookup k (m₁ ++ m₂) = ((lookup k m₁).or (lookup k m₂)) := by
  induction m₁ with
  | nil => simp [lookup]
  | cons p t ih =>
      obtain ⟨k', v⟩ := p
      by_cases h : k = k' <;> simp [lookup, h, ih]

theorem lookup_remove_self (k : α) (m : Map α β) :
    lookup k (remove k m) = none := by
  induction m with
  | nil => rfl
  | cons p t ih =>
      obtain ⟨k', v⟩ := p
      by_cases h : k' = k
      · simpa [remove, List.filter_cons, h] using ih
      · have hne : k ≠ k' := fun hh => h hh.symm
        simpa [remove, List.filter_cons, h, lookup, hne] using ih

theorem lookup_remove_ne (k k' : α) (m : Map α β) (h : k ≠ k') :
    lookup k (remove k' m) = lookup k m := by
  induction m with
  | nil => rfl
  | cons p t ih =>
      obtain ⟨k'', v⟩ := p
      by_cases h2 : k'' = k'
      · subst h2
        simp [remove, List.filter_cons, lookup, h]
        simpa [remove] using ih
      · by_cases h3 : k = k''
        · simp [remove, List.filter_cons, lookup, h2, h3]
        · simp [remove, List.filter_cons, lookup, h2, h3]
          simpa [remove] using ih

@[simp] theorem lookup_insert_self (k : α) (v : β) (m : Map α β) :
    lookup k (insert k v m) = some v := by
  simp [insert, lookup_remove_self, lookup]

theorem lookup_insert_ne (k k' : α) (v : β) (m : Map α β) (h : k ≠ k') :
    lookup k (insert k' v m) = lookup k m := by
  simp [insert, lookup_remove_ne k k' m h, lookup, h, Option.or]
  cases lookup k m <;> simp

theorem contains_insert_ne (k k' : α) (v : β) (m : Map α β) (h : k ≠ k') :
    contains k (insert k' v m) = contains k m := by
  simp [contains, lookup_insert_ne k k' v m h]

theorem contains_remove_ne (k k' : α) (m : Map α β) (h : k ≠ k') :
    contains k (remove k' m) = contains k m := by
  simp [contains, lookup_remove_ne k k' m h]

@[simp] theorem contains_remove_self (k : α) (m : Map α β) :
    contains k (remove k m) = false := by
  simp [contains, lookup_remove_self]

end Map

/-- Duplicate-free-list model of `HashSet`. -/
abbrev SetL (α : Type) : Type := List α

namespace SetL

variable {α : Type} [DecidableEq α]

/-- `HashSet::contains`. -/
def contains (k : α) (s : SetL α) : Bool :=
  decide (k ∈ s)

/-- `HashSet::remove`. -/
def remove (k : α) (s : SetL α) : SetL α :=
  s.filter (fun x => x ≠ k)

/-- `HashSet::insert` (adds only when absent). -/
def insert (k : α) (s : SetL α) : SetL α :=
  if contains k s then s else s ++ [k]

/-- `HashSet::is_empty`. -/
def isEmpty (s : SetL α) : Bool :=
  List.isEmpty s

@[simp] theorem contains_nil (k : α) : contains k ([] : SetL α) = false := rfl

@[simp] theorem setContains_remove_self (k : α) (s : SetL α) :
    contains k (remove k s) = false := by
  simp [contains, remove, List.mem_filter]

theorem setContains_remove_ne (k k' : α) (s : SetL α) (h : k ≠ k') :
    contains k (remove k' s) = contains k s := by
  simp [contains, remove, List.mem_filter, h]

@[simp] theorem setContains_insert_self (k : α) (s : SetL α) :
    contains k (insert k s) = true := by
  by_cases h : contains k s <;> simp_all [insert, contains]

theorem setContains_insert_ne (k k' : α) (s : SetL α) (h : k ≠ k') :
    contains k (insert k' s) = contains k s := by
  by_cases h2 : contains k' s <;> simp_all [insert, contains, h]

@[simp] theorem setRemove_insert_self (k : α) (s : SetL α) :
    remove k (insert k s) = remove k s := by
  by_cases h : contains k s <;> simp_all [insert, remove, List.filter_append]

end SetL

/-- Opaque bit-pattern model of `f64`: the modelled code only stores and moves
floating-point fields, never computes with them. -/
structure F64 where
  bits : Nat
deriving DecidableEq, Repr

/-- `can_dbc::ByteOrder`. -/
inductive ByteOrder where
  | littleEndian
  | bigEndian
deriving DecidableEq, Repr

/-- `can_dbc::ValueType`. -/
inductive ValueType where
  | signed
  | unsigned
deriving DecidableEq, Repr

/-- The fields of `can_dbc::Signal` the modelled code reads or stores. -/
structure Signal where
  name : String
  start_bit : Nat
  signal_size : Nat
  byte_order : ByteOrder
  value_type : ValueType
  factor : F64
  offset : F64
  min : F64
  max : F64
  unit : String
  receivers : List String
deriving DecidableEq, Repr

/-- The read interface of `can_dbc::Message` used by the modelled code. -/
structure BaseMessage where
  message_id : Nat
  message_name : String
  message_size : Nat
  signals : List Signal
deriving DecidableEq, Repr

/-- The read interface of `can_dbc::DBC` used by the modelled code:
`messages()` and `message_comment(id)`. -/
structure DBCModel where
  messages : List BaseMessage
  comments : Map Nat String
deriving DecidableEq, Repr

/-- `DbcData` (src/dbc.rs): read-only parsed data. -/
structure DbcData where
  file_path : String
  dbc : Option DBCModel
  error_message : String
deriving DecidableEq, Repr

/-- `DbcData::new`. -/
def DbcData.new : DbcData :=
  { file_path := "", dbc := none, error_message := "" }

/-- `MessageOverride` (src/dbc.rs). -/
structure MessageOverride where
  message_id : Nat
  message_name : String
  message_size : Nat
  transmitter : Option String
  comment : Option String
  signals : List Signal
deriving DecidableEq, Repr

/-- `MessageOverride::from_message` (src/dbc.rs).  The `try_into().expect(...)`
u64→u8 conversion panics when the parsed size exceeds 255; the panic is
modelled as `none`. -/
def MessageOverride.from_message (msg : BaseMessage) : Option MessageOverride :=
  if 255 < msg.message_size then none
  else some
    { message_id := msg.message_id
      message_name := msg.message_name
      message_size := msg.message_size
      transmitter := none
      comment := none
      signals := msg.signals }

/-- `SignalOverride` (src/dbc.rs). -/
structure SignalOverride where
  name : String
  start_bit : Nat
  signal_size : Nat
  byte_order : ByteOrder
  value_type : ValueType
  factor : F64
  offset : F64
  minimum : F64
  maximum : F64
  unit : String
  comment : String
deriving DecidableEq, Repr

/-- `EditableDbcData` (src/dbc.rs): the overlay data model. -/
structure EditableDbcData where
  base : DbcData
  message_name_overrides : Map Nat String
  message_comment_overrides : Map Nat String
  message_id_overrides : Map Nat Nat
  message_size_overrides : Map Nat Nat
  message_transmitter_overrides : Map Nat String
  added_messages : Map Nat MessageOverride
  signal_overrides : Map (Nat × String) SignalOverride
  deleted_message_ids : SetL Nat
deriving DecidableEq, Repr

namespace EditableDbcData

/-- `EditableDbcData::new`. -/
def new : EditableDbcData :=
  { base := DbcData.new
    message_name_overrides := []
    message_comment_overrides := []
    message_id_overrides := []
    message_size_overrides := []
    message_transmitter_overrides := []
    added_messages := []
    signal_overrides := []
    deleted_message_ids := [] }

/-- `EditableDbcData::from_dbc_data`. -/
def from_dbc_data (dbc : DbcData) : EditableDbcData :=
  { new with base := dbc }

/-- `EditableDbcData::get_message_name`. -/
def get_message_name (s : EditableDbcData) (message_id : Nat)
    (original_name : String) : String :=
  (Map.lookup message_id s.message_name_overrides).getD original_name

/-- `EditableDbcData::set_message_name`. -/
def set_message_name (s : EditableDbcData) (message_id : Nat)
    (new_name : String) : EditableDbcData :=
  if new_name.isEmpty then
    { s with message_name_overrides := Map.remove message_id s.message_name_overrides }
  else
    { s with message_name_overrides := Map.insert message_id new_name s.message_name_overrides }

/-- `EditableDbcData::get_message_comment`: override first, then the base
document's comment table, then the empty string. -/
def get_message_comment (s : EditableDbcData) (message_id : Nat) : String :=
  match Map.lookup message_id s.message_comment_overrides with
  | some comment => comment
  | none =>
      match s.base.dbc with
      | some dbc =>
          if (dbc.messages.any (fun m => m.message_id = message_id)) then
            (Map.lookup message_id dbc.comments).getD ""
          else ""
      | none => ""

/-- `EditableDbcData::set_message_comment`. -/
def set_message_comment (s : EditableDbcData) (message_id : Nat)
    (comment : String) : EditableDbcData :=
  if comment.isEmpty then
    { s with message_comment_overrides := Map.remove message_id s.message_comment_overrides }
  else
    { s with message_comment_overrides := Map.insert message_id comment s.message_comment_overrides }

/-- `EditableDbcData::get_message_id`. -/
def get_message_id (s : EditableDbcData) (original_message_id : Nat) : Nat :=
  (Map.lookup original_message_id s.message_id_overrides).getD original_message_id

/-- `EditableDbcData::set_message_id`. -/
def set_message_id (s : EditableDbcData) (original_message_id : Nat)
    (new_message_id : Nat) : EditableDbcData :=
  if new_message_id = original_message_id then
    { s with message_id_overrides := Map.remove original_message_id s.message_id_overrides }
  else
    { s with message_id_overrides :=
        Map.insert original_message_id new_message_id s.message_id_overrides }

/-- `EditableDbcData::get_message_size`.  The caller-supplied `original_size`
is a `u64` converted to `u8` with `try_into().expect(...)` before the override
lookup; the panic on `original_size > 255` is modelled as `none`. -/
def get_message_size (s : EditableDbcData) (message_id : Nat)
    (original_size : Nat) : Option Nat :=
  if 255 < original_size then none
  else some ((Map.lookup message_id s.message_size_overrides).getD original_size)

/-- `EditableDbcData::set_message_size`: inserts unconditionally (no sentinel
removal; validation is left to the UI layer per the source comment). -/
def set_message_size (s : EditableDbcData) (message_id : Nat)
    (new_size : Nat) : EditableDbcData :=
  { s with message_size_overrides := Map.insert message_id new_size s.message_size_overrides }

/-- `EditableDbcData::get_message_transmitter`. -/
def get_message_transmitter (s : EditableDbcData) (message_id : Nat) : String :=
  (Map.lookup message_id s.message_transmitter_overrides).getD ""

/-- `EditableDbcData::set_message_transmitter`. -/
def set_message_transmitter (s : EditableDbcData) (message_id : Nat)
    (transmitter : String) : EditableDbcData :=
  if transmitter.isEmpty then
    { s with message_transmitter_overrides :=
        Map.remove message_id s.message_transmitter_overrides }
  else
    { s with message_transmitter_overrides :=
        Map.insert message_id transmitter s.message_transmitter_overrides }

/-- `EditableDbcData::add_message`. -/
def add_message (s : EditableDbcData) (message : MessageOverride) : EditableDbcData :=
  { s with
    added_messages := Map.insert message.message_id message s.added_messages
    deleted_message_ids := SetL.remove message.message_id s.deleted_message_ids }

/-- `EditableDbcData::delete_message`: removes a pure addition outright,
otherwise marks a base-document message as deleted. -/
def delete_message (s : EditableDbcData) (message_id : Nat) : EditableDbcData :=
  if Map.contains message_id s.added_messages then
    { s with added_messages := Map.remove message_id s.added_messages }
  else
    { s with deleted_message_ids := SetL.insert message_id s.deleted_message_ids }

/-- `EditableDbcData::has_modifications`. -/
def has_modifications (s : EditableDbcData) : Bool :=
  !s.message_name_overrides.isEmpty
    || !s.message_comment_overrides.isEmpty
    || !s.message_id_overrides.isEmpty
    || !s.message_size_overrides.isEmpty
    || !s.message_transmitter_overrides.isEmpty
    || !s.added_messages.isEmpty
    || !s.deleted_message_ids.isEmpty

end EditableDbcData

/-- `MessageRef` (src/dbc.rs): unified view over base and added messages. -/
inductive MessageRef where
  | original (msg : BaseMessage)
  | custom (msg : MessageOverride)
deriving DecidableEq, Repr

/-- `MessageRef::message_id`. -/
def MessageRef.message_id : MessageRef → Nat
  | .original msg => msg.message_id
  | .custom msg => msg.message_id

/-- `EditableDbcData::get_all_messages`: base-document messages not marked
deleted, followed by the added messages. -/
def EditableDbcData.get_all_messages (s : EditableDbcData) : List MessageRef :=
  (match s.base.dbc with
   | some dbc =>
      (dbc.messages.filter
        (fun msg => !(SetL.contains msg.message_id s.deleted_message_ids))).map
        MessageRef.original
   | none => [])
  ++ s.added_messages.map (fun p => MessageRef.custom p.2)

/-- `Operation` (src/edit_history.rs): one atomic, reversible edit record. -/
inductive Operation where
  | renameMessage (message_id : Nat) (old new : String)
  | modifyMessageId (original_message_id : Nat) (old_id new_id : Nat)
  | modifyMessageComment (message_id : Nat) (old new : String)
  | modifyMessageSize (message_id : Nat) (old new : Nat)
  | modifyMessageTransmitter (message_id : Nat) (old new : String)
  | modifySignal (message_id : Nat) (signal_name : String)
      (old : Option SignalOverride) (new : SignalOverride)
  | addMessage (message : MessageOverride)
  | deleteMessage (message : MessageOverride)
  | composite (ops : List Operation)
deriving Repr

/-- The field-edit variants of `Operation` (everything except add/delete of a
whole message and composites). -/
def Operation.isFieldEdit : Operation → Bool
  | .renameMessage .. => true
  | .modifyMessageId .. => true
  | .modifyMessageComment .. => true
  | .modifyMessageSize .. => true
  | .modifyMessageTransmitter .. => true
  | .modifySignal .. => true
  | .addMessage .. => false
  | .deleteMessage .. => false
  | .composite .. => false

/-- The result of one in-place application: the error (if any) and the state
the mutable reference holds after the call. -/
abbrev ApplyResult (S : Type) : Type := Option String × S

mutual

/-- `impl ApplyOp<EditableDbcData> for Operation` (src/edit_history_integration.rs). -/
def Operation.applyDbc : Operation → EditableDbcData → Bool → ApplyResult EditableDbcData
  | .renameMessage message_id old new, data, forward =>
      if forward then (none, data.set_message_name message_id new)
      else (none, data.set_message_name message_id old)
  | .modifyMessageComment message_id old new, data, forward =>
      if forward then (none, data.set_message_comment message_id new)
      else (none, data.set_message_comment message_id old)
  | .modifyMessageSize message_id old new, data, forward =>
      if forward then (none, data.set_message_size message_id new)
      else (none, data.set_message_size message_id old)
  | .modifyMessageTransmitter message_id old new, data, forward =>
      if forward then (none, data.set_message_transmitter message_id new)
      else (none, data.set_message_transmitter message_id old)
  | .modifyMessageId original_message_id old_id new_id, data, forward =>
      if forward then (none, data.set_message_id original_message_id new_id)
      else (none, data.set_message_id original_message_id old_id)
  | .addMessage message, data, forward =>
      if forward then (none, data.add_message message)
      else (none, data.delete_message message.message_id)
  | .deleteMessage message, data, forward =>
      if forward then (none, data.delete_message message.message_id)
      else (none, data.add_message message)
  | .composite ops, data, forward =>
      if forward then Operation.applyDbcListFwd ops data
      else Operation.applyDbcListBwd ops data
  | .modifySignal message_id signal_name old new, data, forward =>
      if forward then
        let so := Map.insert (message_id, signal_name) new data.signal_overrides
        (none, { data with signal_overrides := so })
      else
        match old with
        | some o =>
            let so := Map.insert (message_id, signal_name) o data.signal_overrides
            (none, { data with signal_overrides := so })
        | none =>
            let so := Map.remove (message_id, signal_name) data.signal_overrides
            (none, { data with signal_overrides := so })

/-- Forward composite application: sub-operations in order, short-circuiting
on the first failure (`for op in ops.iter() { op.apply(data, true)?; }`). -/
def Operation.applyDbcListFwd : List Operation → EditableDbcData → ApplyResult EditableDbcData
  | [], data => (none, data)
  | op :: rest, data =>
      match Operation.applyDbc op data true with
      | (some e, data') => (some e, data')
      | (none, data') => Operation.applyDbcListFwd rest data'

/-- Backward composite application: sub-operations in reverse order,
short-circuiting (`for op in ops.iter().rev() { op.apply(data, false)?; }`). -/
def Operation.applyDbcListBwd : List Operation → EditableDbcData → ApplyResult EditableDbcData
  | [], data => (none, data)
  | op :: rest, data =>
      match Operation.applyDbcListBwd rest data with
      | (some e, data') => (some e, data')
      | (none, data') => Operation.applyDbc op data' false

end

/-- `SignalData` (src/edit_history.rs). -/
structure SignalData where
  name : String
  start_bit : Nat
  size : Nat
deriving DecidableEq, Repr

/-- `TestState` (src/edit_history.rs, test module): the fake state the history
engine is unit-tested against.  Its `ApplyOp` implementation is the one
binding in the repository that can actually fail. -/
structure TestState where
  msgs : Map Nat MessageOverride
  signal_overrides : Map (Nat × String) SignalData
deriving Repr

/-- `TestState::new`. -/
def TestState.new : TestState :=
  { msgs := [], signal_overrides := [] }

mutual

/-- `impl ApplyOp<TestState> for Operation` (src/edit_history.rs, test
module).  Error strings follow the source; the hexadecimal id formatting of
the id-change messages is elided. -/
def Operation.applyTest : Operation → TestState → Bool → ApplyResult TestState
  | .renameMessage message_id old new, state, forward =>
      match Map.lookup message_id state.msgs with
      | some msg =>
          let msg' := if forward then { msg with message_name := new }
            else { msg with message_name := old }
          (none, { state with msgs := Map.insert message_id msg' state.msgs })
      | none => (some s!"Message {message_id} not found", state)
  | .modifyMessageComment message_id old new, state, forward =>
      match Map.lookup message_id state.msgs with
      | some msg =>
          let msg' := if forward then { msg with comment := some new }
            else { msg with comment := some old }
          (none, { state with msgs := Map.insert message_id msg' state.msgs })
      | none => (some s!"Message {message_id} not found", state)
  | .modifyMessageId _ old_id new_id, state, forward =>
      if forward then
        match Map.lookup old_id state.msgs with
        | some msg =>
            let msg' := { msg with message_id := new_id }
            let msgs' := Map.insert new_id msg' (Map.remove old_id state.msgs)
            (none, { state with msgs := msgs' })
        | none => (some s!"Message {old_id} not found for id change", state)
      else
        match Map.lookup new_id state.msgs with
        | some msg =>
            let msg' := { msg with message_id := old_id }
            let msgs' := Map.insert old_id msg' (Map.remove new_id state.msgs)
            (none, { state with msgs := msgs' })
        | none => (some s!"Message {new_id} not found for id revert", state)
  | .modifyMessageSize message_id old new, state, forward =>
      match Map.lookup message_id state.msgs with
      | some msg =>
          let msg' := if forward then { msg with message_size := new }
            else { msg with message_size := old }
          (none, { state with msgs := Map.insert message_id msg' state.msgs })
      | none => (some s!"Message {message_id} not found", state)
  | .modifyMessageTransmitter message_id old new, state, forward =>
      match Map.lookup message_id state.msgs with
      | some msg =>
          let msg' := if forward then { msg with transmitter := some new }
            else { msg with transmitter := some old }
          (none, { state with msgs := Map.insert message_id msg' state.msgs })
      | none => (some s!"Message {message_id} not found", state)
  | .addMessage message, state, forward =>
      if forward then
        (none, { state with msgs := Map.insert message.message_id message state.msgs })
      else
        (none, { state with msgs := Map.remove message.message_id state.msgs })
  | .deleteMessage message, state, forward =>
      if forward then
        if Map.contains message.message_id state.msgs then
          (none, { state with msgs := Map.remove message.message_id state.msgs })
        else
          (some s!"Message {message.message_id} not found for delete", state)
      else
        (none, { state with msgs := Map.insert message.message_id message state.msgs })
  | .composite ops, state, forward =>
      if forward then Operation.applyTestListFwd ops state
      else Operation.applyTestListBwd ops state
  | .modifySignal message_id signal_name old new, state, forward =>
      if forward then
        let sd : SignalData :=
          { name := new.name, start_bit := new.start_bit, size := new.signal_size }
        let so := Map.insert (message_id, signal_name) sd state.signal_overrides
        (none, { state with signal_overrides := so })
      else
        match old with
        | some o =>
            let sd : SignalData :=
              { name := o.name, start_bit := o.start_bit, size := o.signal_size }
            let so := Map.insert (message_id, signal_name) sd state.signal_overrides
            (none, { state with signal_overrides := so })
        | none =>
            let so := Map.remove (message_id, signal_name) state.signal_overrides
            (none, { state with signal_overrides := so })

/-- Forward composite application for `TestState`, in order,
short-circuiting. -/
def Operation.applyTestListFwd : List Operation → TestState → ApplyResult TestState
  | [], state => (none, state)
  | op :: rest, state =>
      match Operation.applyTest op state true with
      | (some e, state') => (some e, state')
      | (none, state') => Operation.applyTestListFwd rest state'

/-- Backward composite application for `TestState`, in reverse order,
short-circuiting. -/
def Operation.applyTestListBwd : List Operation → TestState → ApplyResult TestState
  | [], state => (none, state)
  | op :: rest, state =>
      match Operation.applyTestListBwd rest state with
      | (some e, state') => (some e, state')
      | (none, state') => Operation.applyTest op state' false

end

/-- `History` (src/edit_history.rs): single op sequence plus cursor. -/
structure History where
  ops : List Operation
  cursor : Nat
  max_len : Nat
deriving Repr

namespace History

/-- `History::new`. -/
def new (max_len : Nat) : History :=
  { ops := [], cursor := 0, max_len := max_len }

/-- `History::can_undo`. -/
def can_undo (h : History) : Bool :=
  decide (0 < h.cursor)

/-- `History::can_redo`. -/
def can_redo (h : History) : Bool :=
  decide (h.cursor < h.ops.length)

/-- `History::apply_new`, generic over the state type and the `ApplyOp`
implementation `ap` (the trait method).  Returns the error (if any), the
history, and the state after the call; on an apply failure the op has already
been pushed (after any truncation) and the cursor is left unchanged, exactly
as in the source. -/
def apply_new {S : Type} (ap : Operation → S → Bool → ApplyResult S)
    (op : Operation) (h : History) (s : S) : Option String × History × S :=
  let ops1 := if h.cursor < h.ops.length then h.ops.take h.cursor else h.ops
  let ops2 := ops1 ++ [op]
  let r := ap op s true
  match r.1 with
  | some e => (some e, { h with ops := ops2 }, r.2)
  | none =>
      let len := ops2.length
      if len > h.max_len then
        let overflow := len - h.max_len
        (none,
          { ops := ops2.drop overflow
            cursor := if len ≥ overflow then len - overflow else 0
            max_len := h.max_len },
          r.2)
      else (none, { ops := ops2, cursor := len, max_len := h.max_len }, r.2)

/-- `History::undo`: decrements the cursor, then applies the operation at the
new cursor position backward.  On an apply failure the cursor stays
decremented.  (The out-of-range branch is unreachable for histories built
through the API, where `cursor ≤ ops.length` always holds; in the source it
would be an index panic.) -/
def undo {S : Type} (ap : Operation → S → Bool → ApplyResult S)
    (h : History) (s : S) : Option String × History × S :=
  if h.cursor = 0 then (some "Nothing to undo", h, s)
  else
    let c := h.cursor - 1
    match h.ops.get? c with
    | none => (some "index out of range", { h with cursor := c }, s)
    | some op =>
        let r := ap op s false
        (r.1, { h with cursor := c }, r.2)

/-- `History::redo`: applies the operation at the cursor forward, then
increments the cursor only on success. -/
def redo {S : Type} (ap : Operation → S → Bool → ApplyResult S)
    (h : History) (s : S) : Option String × History × S :=
  if h.cursor ≥ h.ops.length then (some "Nothing to redo", h, s)
  else
    match h.ops.get? h.cursor with
    | none => (some "index out of range", h, s)
    | some op =>
        let r := ap op s true
        match r.1 with
        | some e => (some e, h, r.2)
        | none => (none, { h with cursor := h.cursor + 1 }, r.2)

/-- Fold a list of operations through `apply_new` (the state of the mutable
references after each call, errors notwithstanding; with the
`EditableDbcData` binding every call succeeds). -/
def applyAll {S : Type} (ap : Operation → S → Bool → ApplyResult S) :
    List Operation → History → S → History × S
  | [], h, s => (h, s)
  | op :: rest, h, s =>
      let r := apply_new ap op h s
      applyAll ap rest r.2.1 r.2.2

end History

/-- The overlay states reachable from a freshly loaded document through
`add_message`, `delete_message` and the per-field setters. -/
inductive Reachable : EditableDbcData → Prop where
  | load (d : DbcData) : Reachable (EditableDbcData.from_dbc_data d)
  | add {s : EditableDbcData} (m : MessageOverride) :
      Reachable s → Reachable (s.add_message m)
  | del {s : EditableDbcData} (id : Nat) :
      Reachable s → Reachable (s.delete_message id)
  | sname {s : EditableDbcData} (id : Nat) (v : String) :
      Reachable s → Reachable (s.set_message_name id v)
  | scomment {s : EditableDbcData} (id : Nat) (v : String) :
      Reachable s → Reachable (s.set_message_comment id v)
  | sid {s : EditableDbcData} (id v : Nat) :
      Reachable s → Reachable (s.set_message_id id v)
  | ssize {s : EditableDbcData} (id v : Nat) :
      Reachable s → Reachable (s.set_message_size id v)
  | stransmitter {s : EditableDbcData} (id : Nat) (v : String) :
      Reachable s → Reachable (s.set_message_transmitter id v)

/-! ## Helper lemmas -/

mutual

/-- The `EditableDbcData` binding never fails: every arm of the integration
`apply` returns `Ok(())`. -/
theorem applyDbc_err_none (op : Operation) (s : EditableDbcData) (fwd : Bool) :
    (Operation.applyDbc op s fwd).1 = none := by
  cases op with
  | composite ops =>
      cases fwd with
      | true => simpa [Operation.applyDbc] using applyDbcListFwd_err_none ops s
      | false => simpa [Operation.applyDbc] using applyDbcListBwd_err_none ops s
  | modifySignal id nm old new =>
      cases old <;> cases fwd <;> simp [Operation.applyDbc]
  | _ => cases fwd <;> simp [Operation.applyDbc]

theorem applyDbcListFwd_err_none (l : List Operation) (s : EditableDbcData) :
    (Operation.applyDbcListFwd l s).1 = none := by
  cases l with
  | nil => simp [Operation.applyDbcListFwd]
  | cons op rest =>
      rcases hr : Operation.applyDbc op s true with ⟨e, s'⟩
      have he : e = none := by
        have := applyDbc_err_none op s true
        rw [hr] at this; exact this
      subst he
      simpa [Operation.applyDbcListFwd, hr] using applyDbcListFwd_err_none rest s'

theorem applyDbcListBwd_err_none (l : List Operation) (s : EditableDbcData) :
    (Operation.applyDbcListBwd l s).1 = none := by
  cases l with
  | nil => simp [Operation.applyDbcListBwd]
  | cons op rest =>
      rcases hr : Operation.applyDbcListBwd rest s with ⟨e, s'⟩
      have he : e = none := by
        have := applyDbcListBwd_err_none rest s
        rw [hr] at this; exact this
      subst he
      simpa [Operation.applyDbcListBwd, hr] using applyDbc_err_none op s' false

end

/-- Reduction of `apply_new` for the never-failing `EditableDbcData`
binding. -/
theorem apply_new_dbc_eq (op : Operation) (h : History) (s : EditableDbcData) :
    History.apply_new Operation.applyDbc op h s =
      (none,
        (let ops2 := (if h.cursor < h.ops.length then h.ops.take h.cursor else h.ops) ++ [op]
         if ops2.length > h.max_len then
           { ops := ops2.drop (ops2.length - h.max_len)
             cursor := ops2.length - (ops2.length - h.max_len)
             max_len := h.max_len }
         else { ops := ops2, cursor := ops2.length, max_len := h.max_len } : History),
        (Operation.applyDbc op s true).2) := by
  rcases hr : Operation.applyDbc op s true with ⟨e, s₂⟩
  have he : e = none := by
    have := applyDbc_err_none op s true
    rw [hr] at this; exact this
  subst he
  simp only [History.apply_new, hr]
  split <;> split <;> simp [Nat.sub_le]

/-- Reduction of `undo` for the `EditableDbcData` binding when the cursor is
positive and in range. -/
theorem undo_dbc_eq (h : History) (s : EditableDbcData) (op : Operation)
    (hc : h.cursor ≠ 0) (hop : h.ops[h.cursor - 1]? = some op) :
    History.undo Operation.applyDbc h s =
      (none, { h with cursor := h.cursor - 1 }, (Operation.applyDbc op s false).2) := by
  rcases hr : Operation.applyDbc op s false with ⟨e, s₂⟩
  have he : e = none := by
    have := applyDbc_err_none op s false
    rw [hr] at this; exact this
  subst he
  simp [History.undo, hc, List.get?_eq_getElem?, hop, hr]

/-- Reduction of `redo` for the `EditableDbcData` binding when the cursor is
below the end. -/
theorem redo_dbc_eq (h : History) (s : EditableDbcData) (op : Operation)
    (hc : ¬h.ops.length ≤ h.cursor) (hop : h.ops[h.cursor]? = some op) :
    History.redo Operation.applyDbc h s =
      (none, { h with cursor := h.cursor + 1 }, (Operation.applyDbc op s true).2) := by
  rcases hr : Operation.applyDbc op s true with ⟨e, s₂⟩
  have he : e = none := by
    have := applyDbc_err_none op s true
    rw [hr] at this; exact this
  subst he
  simp [History.redo, hc, List.get?_eq_getElem?, hop, hr]

/-- No reachable overlay state has an identifier both in `added_messages`
and in `deleted_message_ids`. -/
theorem reachable_disjoint {s : EditableDbcData} (hs : Reachable s) (k : Nat) :
    (Map.contains k s.added_messages && SetL.contains k s.deleted_message_ids) = false := by
  induction hs with
  | load d => rfl
  | @add s m _ ih =>
      by_cases hk : k = m.message_id
      · subst hk
        simp [EditableDbcData.add_message, SetL.setContains_remove_self]
      · simp only [EditableDbcData.add_message]
        simpa [Map.contains_insert_ne k m.message_id _ _ hk,
          SetL.setContains_remove_ne k m.message_id _ hk] using ih
  | @del s id _ ih =>
      by_cases hc : Map.contains id s.added_messages
      · by_cases hk : k = id
        · subst hk
          simp [EditableDbcData.delete_message, hc]
        · simp only [EditableDbcData.delete_message, hc, if_true]
          simpa [Map.contains_remove_ne k id _ hk] using ih
      · by_cases hk : k = id
        · subst hk
          simp [EditableDbcData.delete_message, hc, Map.contains] at hc ⊢
          simp [hc]
        · simp only [EditableDbcData.delete_message, hc, if_false]
          simpa [SetL.setContains_insert_ne k id _ hk] using ih
  | @sname s id v _ ih =>
      by_cases hv : v.isEmpty <;> simpa [EditableDbcData.set_message_name, hv] using ih
  | @scomment s id v _ ih =>
      by_cases hv : v.isEmpty <;> simpa [EditableDbcData.set_message_comment, hv] using ih
  | @sid s id v _ ih =>
      by_cases hv : v = id <;> simpa [EditableDbcData.set_message_id, hv] using ih
  | @ssize s id v _ ih =>
      simpa [EditableDbcData.set_message_size] using ih
  | @stransmitter s id v _ ih =>
      by_cases hv : v.isEmpty <;>
        simpa [EditableDbcData.set_message_transmitter, hv] using ih

/-! ## Claim C6: added/deleted disjointness -/

/-- C6: in every reachable overlay state no message identifier is both a key
of `added_messages` and a member of `deleted_message_ids`; moreover
`add_message(m)` removes `m.message_id` from the deleted set, and
`delete_message(id)` of an identifier present in `added_messages` removes it
from `added_messages` and leaves the deleted set untouched. -/
theorem overlay_disjoint_invariant (s : EditableDbcData) (hs : Reachable s)
    (id : Nat) (m : MessageOverride) :
    ¬(Map.contains id s.added_messages = true
        ∧ SetL.contains id s.deleted_message_ids = true)
    ∧ SetL.contains m.message_id (s.add_message m).deleted_message_ids = false
    ∧ (Map.contains id s.added_messages = true →
        Map.lookup id (s.delete_message id).added_messages = none
        ∧ (s.delete_message id).deleted_message_ids = s.deleted_message_ids) := by
  refine ⟨?_, ?_, ?_⟩
  · rintro ⟨h1, h2⟩
    have h := reachable_disjoint hs id
    rw [h1, h2] at h
    exact absurd h (by simp)
  · simp [EditableDbcData.add_message, SetL.setContains_remove_self]
  · intro hc
    constructor <;>
      simp [EditableDbcData.delete_message, hc, Map.lookup_remove_self]

/-- Witness for `overlay_disjoint_invariant` at a concrete reachable
state. -/
theorem overlay_disjoint_invariant_witness :
    let m : MessageOverride :=
      { message_id := 7, message_name := "W", message_size := 8,
        transmitter := none, comment := none, signals := [] }
    let s := (EditableDbcData.from_dbc_data DbcData.new).add_message m
    ¬(Map.contains 7 s.added_messages = true
        ∧ SetL.contains 7 s.deleted_message_ids = true)
    ∧ SetL.contains 7 (s.add_message m).deleted_message_ids = false
    ∧ (Map.contains 7 s.added_messages = true →
        Map.lookup 7 (s.delete_message 7).added_messages = none
        ∧ (s.delete_message 7).deleted_message_ids = s.deleted_message_ids) :=
  overlay_disjoint_invariant _
    (Reachable.add _ (Reachable.load DbcData.new)) 7 _

/-! ## Claim C1: operation round-trip -/

/-- C1 (amended): for every field-edit variant of `Operation`
(rename, comment, id, size, transmitter, signal), applying the operation
forward and then backward yields exactly the state produced by applying it
backward alone; hence the round-trip restores `s` bit-for-bit precisely when
`s` already stores the operation's old value in the form the backward
application writes.  (For `AddMessage`/`DeleteMessage`/`Composite` the
round-trip need not restore `s`; see the counterexample.) -/
theorem fieldEdit_roundtrip_eq_backward (op : Operation) (s : EditableDbcData)
    (hf : op.isFieldEdit = true) :
    (Operation.applyDbc op (Operation.applyDbc op s true).2 false).2
      = (Operation.applyDbc op s false).2 := by
  cases op with
  | renameMessage id old new =>
      by_cases h1 : new.isEmpty <;> by_cases h2 : old.isEmpty <;>
        simp [Operation.applyDbc, EditableDbcData.set_message_name, h1, h2]
  | modifyMessageComment id old new =>
      by_cases h1 : new.isEmpty <;> by_cases h2 : old.isEmpty <;>
        simp [Operation.applyDbc, EditableDbcData.set_message_comment, h1, h2]
  | modifyMessageTransmitter id old new =>
      by_cases h1 : new.isEmpty <;> by_cases h2 : old.isEmpty <;>
        simp [Operation.applyDbc, EditableDbcData.set_message_transmitter, h1, h2]
  | modifyMessageId orig old_id new_id =>
      by_cases h1 : new_id = orig <;> by_cases h2 : old_id = orig <;>
        simp [Operation.applyDbc, EditableDbcData.set_message_id, h1, h2]
  | modifyMessageSize id old new =>
      simp [Operation.applyDbc, EditableDbcData.set_message_size]
  | modifySignal id nm old new =>
      cases old <;> simp [Operation.applyDbc]
  | addMessage m => simp [Operation.isFieldEdit] at hf
  | deleteMessage m => simp [Operation.isFieldEdit] at hf
  | composite l => simp [Operation.isFieldEdit] at hf

/-- C1 counterexample: the claimed bit-for-bit restoration fails as stated.
`ModifyMessageSize` on a fresh overlay: forward inserts the new size override
and backward inserts the old one, so after the round-trip the size-override
map holds an entry that the pre-op state did not have. -/
theorem roundtrip_not_bitForBit_cex :
    let s := EditableDbcData.new
    let op := Operation.modifyMessageSize 1 2 3
    Map.lookup 1 ((Operation.applyDbc op (Operation.applyDbc op s true).2 false).2.message_size_overrides)
        = some 2
    ∧ Map.lookup 1 s.message_size_overrides = none :=
  ⟨rfl, rfl⟩

/-- Witness for `fieldEdit_roundtrip_eq_backward` at a concrete input. -/
theorem fieldEdit_roundtrip_witness :
    (Operation.renameMessage 1 "a" "b").isFieldEdit = true
    ∧ (Operation.applyDbc (Operation.renameMessage 1 "a" "b")
        (Operation.applyDbc (Operation.renameMessage 1 "a" "b")
          EditableDbcData.new true).2 false).2
      = (Operation.applyDbc (Operation.renameMessage 1 "a" "b")
          EditableDbcData.new false).2 :=
  ⟨rfl, fieldEdit_roundtrip_eq_backward (Operation.renameMessage 1 "a" "b")
    EditableDbcData.new rfl⟩

/-! ## Claim C7: overlay name fallback -/

/-- C7: `get_message_name(id, orig)` returns `orig` when no override entry
exists for `id`; after `set_message_name(id, n)` with `n` non-empty it
returns `n`; and setting the name back to the empty string removes the entry,
so the read falls back to `orig` again. -/
theorem overlay_name_fallback (s : EditableDbcData) (id : Nat) (orig n : String)
    (hn : n.isEmpty = false)
    (habs : Map.lookup id s.message_name_overrides = none) :
    s.get_message_name id orig = orig
    ∧ (s.set_message_name id n).get_message_name id orig = n
    ∧ Map.lookup id ((s.set_message_name id n).set_message_name id "").message_name_overrides = none
    ∧ ((s.set_message_name id n).set_message_name id "").get_message_name id orig = orig := by
  refine ⟨?_, ?_, ?_, ?_⟩ <;>
    simp [EditableDbcData.get_message_name, EditableDbcData.set_message_name,
      hn, habs, Map.lookup_remove_self,
      show ("" : String).isEmpty = true from rfl]

/-- Witness for `overlay_name_fallback` at a concrete input. -/
theorem overlay_name_fallback_witness :
    ("New" : String).isEmpty = false
    ∧ Map.lookup 1600 EditableDbcData.new.message_name_overrides = none
    ∧ EditableDbcData.new.get_message_name 1600 "Orig" = "Orig"
    ∧ (EditableDbcData.new.set_message_name 1600 "New").get_message_name 1600 "Orig" = "New"
    ∧ ((EditableDbcData.new.set_message_name 1600 "New").set_message_name 1600 "").get_message_name 1600 "Orig" = "Orig" := by
  have h := overlay_name_fallback EditableDbcData.new 1600 "Orig" "New" rfl rfl
  exact ⟨rfl, rfl, h.1, h.2.1, h.2.2.2⟩

/-! ## Claim C8: sentinel removal in the setters -/

/-- C8 (amended): `set_message_name`, `set_message_comment` and
`set_message_transmitter` remove the override entry on the empty string, and
`set_message_id` removes it when the new identifier equals the original; but
`set_message_size` inserts unconditionally — it has no sentinel, so a size
override can never be removed through the setter and `has_modifications()`
stays true once a size was set. -/
theorem setter_sentinel_behavior (s : EditableDbcData) (id v : Nat) (t : String)
    (ht : t.isEmpty = false) :
    (s.set_message_name id "").message_name_overrides
        = Map.remove id s.message_name_overrides
    ∧ (s.set_message_comment id "").message_comment_overrides
        = Map.remove id s.message_comment_overrides
    ∧ (s.set_message_transmitter id "").message_transmitter_overrides
        = Map.remove id s.message_transmitter_overrides
    ∧ (s.set_message_id id id).message_id_overrides
        = Map.remove id s.message_id_overrides
    ∧ (s.set_message_size id v).message_size_overrides
        = Map.insert id v s.message_size_overrides
    ∧ (s.set_message_name id t).message_name_overrides
        = Map.insert id t s.message_name_overrides := by
  refine ⟨?_, ?_, ?_, ?_, ?_, ?_⟩ <;>
    simp [EditableDbcData.set_message_name, EditableDbcData.set_message_comment,
      EditableDbcData.set_message_transmitter, EditableDbcData.set_message_id,
      EditableDbcData.set_message_size, ht,
      show ("" : String).isEmpty = true from rfl]

/-- C8 counterexample: setting the size back to the original value (the
claimed sentinel) does not remove the override — the entry is inserted and
`has_modifications()` is true. -/
theorem set_message_size_no_sentinel_cex :
    let bm : BaseMessage :=
      { message_id := 1, message_name := "M", message_size := 8, signals := [] }
    let d : DbcData :=
      { file_path := "", dbc := some { messages := [bm], comments := [] },
        error_message := "" }
    let s := EditableDbcData.from_dbc_data d
    Map.lookup 1 (s.set_message_size 1 8).message_size_overrides = some 8
    ∧ (s.set_message_size 1 8).has_modifications = true :=
  ⟨rfl, rfl⟩

/-- Witness for `setter_sentinel_behavior` at a concrete input. -/
theorem setter_sentinel_behavior_witness :
    ("X" : String).isEmpty = false
    ∧ (EditableDbcData.new.set_message_name 1 "").message_name_overrides
        = Map.remove 1 EditableDbcData.new.message_name_overrides
    ∧ (EditableDbcData.new.set_message_size 1 8).message_size_overrides
        = Map.insert 1 8 EditableDbcData.new.message_size_overrides := by
  have h := setter_sentinel_behavior EditableDbcData.new 1 8 "X" rfl
  exact ⟨rfl, h.1, h.2.2.2.2.1⟩

/-! ## Claim C9: not-found reporting -/

/-- C9 (amended): the `EditableDbcData` binding is total — every forward or
backward application of every `Operation` returns `Ok(())`, whether or not
the referenced identifiers exist.  Absent identifiers are not detected as
errors (see the counterexample, where undoing an `AddMessage` whose
identifier is absent silently marks the identifier deleted). -/
theorem applyDbc_never_fails (op : Operation) (s : EditableDbcData) (forward : Bool) :
    (Operation.applyDbc op s forward).1 = none :=
  applyDbc_err_none op s forward

/-- C9 counterexample: undoing an `AddMessage` whose identifier was never in
the overlay returns no error at all (the claim requires a recoverable
not-found failure) and inserts the identifier into the deleted set. -/
theorem addMessage_undo_silent_cex :
    let m : MessageOverride :=
      { message_id := 1, message_name := "M", message_size := 8,
        transmitter := none, comment := none, signals := [] }
    let r := Operation.applyDbc (Operation.addMessage m) EditableDbcData.new false
    Map.contains 1 EditableDbcData.new.added_messages = false
    ∧ r.1 = none
    ∧ SetL.contains 1 r.2.deleted_message_ids = true :=
  ⟨rfl, rfl, rfl⟩

/-! ## Claim C3: history state after a failed call -/

/-- C3 (amended): a failed `redo` (for any reason) and a no-op `undo`
(`cursor = 0`) leave the history's sequence and cursor unchanged; but a
failed `apply_new` leaves the failed operation pushed (after truncation at
the cursor) with the cursor unchanged, and a failed `undo` with a positive
cursor leaves the sequence unchanged with the cursor already decremented. -/
theorem history_failure_shape {S : Type} (ap : Operation → S → Bool → ApplyResult S)
    (op : Operation) (h : History) (s : S) :
    (∀ e h' s', History.apply_new ap op h s = (some e, h', s') →
        h'.cursor = h.cursor
        ∧ h'.ops = (if h.cursor < h.ops.length then h.ops.take h.cursor else h.ops) ++ [op])
    ∧ (∀ e h' s', History.undo ap h s = (some e, h', s') →
        h'.ops = h.ops
        ∧ (h.cursor = 0 → h' = h)
        ∧ (h.cursor ≠ 0 → h'.cursor = h.cursor - 1))
    ∧ (∀ e h' s', History.redo ap h s = (some e, h', s') → h' = h) := by
  refine ⟨?_, ?_, ?_⟩
  · intro e h' s' heq
    rcases hr : ap op s true with ⟨e0, s₂⟩
    simp only [History.apply_new, hr] at heq
    cases e0 with
    | none =>
        exfalso
        split at heq
        · simp_all
        · split at heq <;> split at heq <;> simp_all
    | some e1 =>
        simp only [Prod.mk.injEq] at heq
        obtain ⟨-, hh, -⟩ := heq
        subst hh
        exact ⟨rfl, rfl⟩
  · intro e h' s' heq
    by_cases hc : h.cursor = 0
    · rw [History.undo, if_pos hc] at heq
      have hh : h' = h := (congrArg (fun p => p.2.1) heq).symm
      subst hh
      exact ⟨rfl, fun _ => rfl, fun hne => absurd hc hne⟩
    · rw [History.undo, if_neg hc] at heq
      dsimp only [] at heq
      cases hop : h.ops.get? (h.cursor - 1) with
      | none =>
          rw [hop] at heq
          have hh : h' = { h with cursor := h.cursor - 1 } :=
            (congrArg (fun p => p.2.1) heq).symm
          subst hh
          exact ⟨rfl, fun h0 => absurd h0 hc, fun _ => rfl⟩
      | some op' =>
          rw [hop] at heq
          have hh : h' = { h with cursor := h.cursor - 1 } :=
            (congrArg (fun p => p.2.1) heq).symm
          subst hh
          exact ⟨rfl, fun h0 => absurd h0 hc, fun _ => rfl⟩
  · intro e h' s' heq
    by_cases hc : h.cursor ≥ h.ops.length
    · rw [History.redo, if_pos hc] at heq
      exact (congrArg (fun p => p.2.1) heq).symm
    · rw [History.redo, if_neg hc] at heq
      dsimp only [] at heq
      cases hop : h.ops.get? h.cursor with
      | none =>
          rw [hop] at heq
          exact (congrArg (fun p => p.2.1) heq).symm
      | some op' =>
          rw [hop] at heq
          dsimp only [] at heq
          rcases hr : ap op' s true with ⟨e0, s₂⟩
          rw [hr] at heq
          cases e0 with
          | none =>
              have h1 := congrArg (fun p => p.1) heq
              simp at h1
          | some e1 =>
              exact (congrArg (fun p => p.2.1) heq).symm

/-- C3 counterexample: a failing `apply_new` (through the repository's own
`TestState` binding, where renaming an absent message fails) returns an error
yet has already grown the operation sequence from length 0 to length 1. -/
theorem history_failure_mutates_cex :
    let op := Operation.renameMessage 1 "a" "b"
    let r := History.apply_new Operation.applyTest op (History.new 100) TestState.new
    r.1.isSome = true
    ∧ (History.new 100).ops.length = 0
    ∧ r.2.1.ops.length = 1 :=
  ⟨rfl, rfl, rfl⟩

/-- Witness for `history_failure_shape` at a concrete failing input. -/
theorem history_failure_shape_witness :
    ({ ops := [Operation.renameMessage 1 "a" "b"], cursor := 0, max_len := 100 } : History).cursor
        = (History.new 100).cursor
    ∧ ({ ops := [Operation.renameMessage 1 "a" "b"], cursor := 0, max_len := 100 } : History).ops
        = (if (History.new 100).cursor < (History.new 100).ops.length then
            (History.new 100).ops.take (History.new 100).cursor
          else (History.new 100).ops) ++ [Operation.renameMessage 1 "a" "b"] :=
  (history_failure_shape Operation.applyTest (Operation.renameMessage 1 "a" "b")
      (History.new 100) TestState.new).1
    "Message 1 not found"
    { ops := [Operation.renameMessage 1 "a" "b"], cursor := 0, max_len := 100 }
    TestState.new rfl

/-- Invariant of repeated `apply_new` with the `EditableDbcData` binding:
starting from a history whose cursor sits at the end and whose length is
within the cap, the cursor stays at the end and the length is the capped
total count. -/
theorem applyAll_dbc_inv (l : List Operation) (h : History) (s : EditableDbcData)
    (hc : h.cursor = h.ops.length) (hlen : h.ops.length ≤ h.max_len) :
    (History.applyAll Operation.applyDbc l h s).1.max_len = h.max_len
    ∧ (History.applyAll Operation.applyDbc l h s).1.cursor
        = (History.applyAll Operation.applyDbc l h s).1.ops.length
    ∧ (History.applyAll Operation.applyDbc l h s).1.ops.length
        = min (h.ops.length + l.length) h.max_len := by
  induction l generalizing h s with
  | nil =>
      simp [History.applyAll, hc, Nat.min_eq_left hlen]
  | cons op rest ih =>
      rw [History.applyAll]
      rw [apply_new_dbc_eq]
      dsimp only []
      have hnotlt : ¬h.cursor < h.ops.length := by omega
      rw [if_neg hnotlt]
      by_cases hov : (h.ops ++ [op]).length > h.max_len
      · rw [if_pos hov]
        have hov' : h.max_len < h.ops.length + 1 := by simpa using hov
        have ihs := ih { ops := (h.ops ++ [op]).drop ((h.ops ++ [op]).length - h.max_len)
                         cursor := (h.ops ++ [op]).length - ((h.ops ++ [op]).length - h.max_len)
                         max_len := h.max_len }
          (Operation.applyDbc op s true).2
          (by simp [List.length_drop])
          (by simp [List.length_drop]; omega)
        refine ⟨ihs.1, ihs.2.1, ?_⟩
        rw [ihs.2.2]
        simp [List.length_drop]
        omega
      · rw [if_neg hov]
        have hov' : ¬h.max_len < h.ops.length + 1 := by simpa using hov
        have ihs := ih { ops := h.ops ++ [op]
                         cursor := (h.ops ++ [op]).length
                         max_len := h.max_len }
          (Operation.applyDbc op s true).2
          rfl
          (by simp; omega)
        refine ⟨ihs.1, ihs.2.1, ?_⟩
        rw [ihs.2.2]
        simp
        omega

/-! ## Claim C4: retention eviction -/

/-- C4: with cap `K ≥ 1`, a successful `apply_new` drops exactly
`length − K` oldest entries when the new length exceeds `K` and decrements
the cursor by the same amount (never below zero), leaving
`cursor = length = min(length, K)`; consequently after `K+1` applies with no
undo the sequence holds exactly `K` operations, the cursor equals `K`
(within `[0, length]`), and `can_undo()` is true. -/
theorem retention_eviction (K : Nat) (hK : 1 ≤ K) (op : Operation)
    (h : History) (s : EditableDbcData) (hmax : h.max_len = K)
    (l : List Operation) (hl : l.length = K + 1) (s0 : EditableDbcData) :
    (∀ h' s', History.apply_new Operation.applyDbc op h s = (none, h', s') →
        (h'.ops = ((if h.cursor < h.ops.length then h.ops.take h.cursor else h.ops) ++ [op]).drop
            (((if h.cursor < h.ops.length then h.ops.take h.cursor else h.ops) ++ [op]).length - K)
          ∧ h'.cursor = min ((if h.cursor < h.ops.length then h.ops.take h.cursor else h.ops) ++ [op]).length K
          ∧ h'.cursor ≤ h'.ops.length))
    ∧ ((History.applyAll Operation.applyDbc l (History.new K) s0).1.ops.length = K
        ∧ (History.applyAll Operation.applyDbc l (History.new K) s0).1.cursor = K
        ∧ (History.applyAll Operation.applyDbc l (History.new K) s0).1.can_undo = true) := by
  constructor
  · intro h' s' heq
    rw [apply_new_dbc_eq] at heq
    dsimp only [] at heq
    by_cases hov : ((if h.cursor < h.ops.length then h.ops.take h.cursor else h.ops) ++ [op]).length > h.max_len
    · rw [if_pos hov] at heq
      have hh := congrArg (fun p => p.2.1) heq
      dsimp only [] at hh
      subst hh
      dsimp only []
      refine ⟨?_, ?_, ?_⟩
      · rw [hmax]
      · rw [← hmax]
        omega
      · simp [List.length_drop]
    · rw [if_neg hov] at heq
      have hh := congrArg (fun p => p.2.1) heq
      dsimp only [] at hh
      subst hh
      dsimp only []
      have hz : ((if h.cursor < h.ops.length then h.ops.take h.cursor else h.ops) ++ [op]).length - K = 0 := by
        omega
      refine ⟨?_, ?_, ?_⟩
      · rw [hz, List.drop_zero]
      · rw [← hmax]
        omega
      · omega
  · have hinv := applyAll_dbc_inv l (History.new K) s0 rfl (by simp [History.new])
    have h0 : (History.new K).ops.length = 0 := rfl
    have hm : (History.new K).max_len = K := rfl
    rw [h0, hm, hl, Nat.zero_add] at hinv
    have hmin : min (K + 1) K = K := by omega
    rw [hmin] at hinv
    refine ⟨hinv.2.2, ?_, ?_⟩
    · rw [hinv.2.1, hinv.2.2]
    · simp only [History.can_undo]
      rw [hinv.2.1, hinv.2.2]
      simpa using hK

/-- Witness for `retention_eviction` at a concrete input: cap 1, two
applies. -/
theorem retention_eviction_witness :
    (History.applyAll Operation.applyDbc
        [Operation.modifyMessageSize 1 0 1, Operation.modifyMessageSize 1 1 2]
        (History.new 1) EditableDbcData.new).1.ops.length = 1
    ∧ (History.applyAll Operation.applyDbc
        [Operation.modifyMessageSize 1 0 1, Operation.modifyMessageSize 1 1 2]
        (History.new 1) EditableDbcData.new).1.cursor = 1
    ∧ (History.applyAll Operation.applyDbc
        [Operation.modifyMessageSize 1 0 1, Operation.modifyMessageSize 1 1 2]
        (History.new 1) EditableDbcData.new).1.can_undo = true :=
  (retention_eviction 1 (by decide) (Operation.modifyMessageSize 1 0 1)
      (History.new 1) EditableDbcData.new rfl
      [Operation.modifyMessageSize 1 0 1, Operation.modifyMessageSize 1 1 2]
      rfl EditableDbcData.new).2

/-! ## Claim C5: branch truncation -/

/-- C5: `apply_new` with the cursor strictly inside the sequence first
discards the entries from the cursor to the end; hence after
`apply_new(a)`, `apply_new(b)`, `undo()`, `apply_new(c)` the sequence is
exactly `[a, c]`, `can_redo()` is false, and — since `undo`/`redo` never
change the sequence — the discarded `b` entry can never be applied forward
again. -/
theorem branch_truncation (K : Nat) (hK : 2 ≤ K) (a b c : Operation)
    (s : EditableDbcData) :
    (let r1 := History.apply_new Operation.applyDbc a (History.new K) s
     let r2 := History.apply_new Operation.applyDbc b r1.2.1 r1.2.2
     let r3 := History.undo Operation.applyDbc r2.2.1 r2.2.2
     let r4 := History.apply_new Operation.applyDbc c r3.2.1 r3.2.2
     r4.2.1.ops = [a, c] ∧ r4.2.1.can_redo = false)
    ∧ (∀ (S : Type) (ap : Operation → S → Bool → ApplyResult S) (h : History) (t : S),
        (History.undo ap h t).2.1.ops = h.ops
        ∧ (History.redo ap h t).2.1.ops = h.ops) := by
  constructor
  · have hh1 : ¬((1:Nat) > K) := by omega
    have hh2 : ¬((2:Nat) > K) := by omega
    have e1 : History.apply_new Operation.applyDbc a (History.new K) s
        = (none, { ops := [a], cursor := 1, max_len := K },
            (Operation.applyDbc a s true).2) := by
      rw [apply_new_dbc_eq]
      simp [History.new, hh1]
    have e2 : History.apply_new Operation.applyDbc b
        { ops := [a], cursor := 1, max_len := K } (Operation.applyDbc a s true).2
        = (none, { ops := [a, b], cursor := 2, max_len := K },
            (Operation.applyDbc b (Operation.applyDbc a s true).2 true).2) := by
      rw [apply_new_dbc_eq]
      simp [hh2]
    have e3 : History.undo Operation.applyDbc
        { ops := [a, b], cursor := 2, max_len := K }
        (Operation.applyDbc b (Operation.applyDbc a s true).2 true).2
        = (none, { ops := [a, b], cursor := 1, max_len := K },
            (Operation.applyDbc b
              (Operation.applyDbc b (Operation.applyDbc a s true).2 true).2 false).2) := by
      rw [undo_dbc_eq { ops := [a, b], cursor := 2, max_len := K }
        (Operation.applyDbc b (Operation.applyDbc a s true).2 true).2 b
        (by simp) rfl]
      rfl
    have e4 : History.apply_new Operation.applyDbc c
        { ops := [a, b], cursor := 1, max_len := K }
        (Operation.applyDbc b
          (Operation.applyDbc b (Operation.applyDbc a s true).2 true).2 false).2
        = (none, { ops := [a, c], cursor := 2, max_len := K }, (Operation.applyDbc c
            (Operation.applyDbc b
              (Operation.applyDbc b (Operation.applyDbc a s true).2 true).2 false).2 true).2) := by
      rw [apply_new_dbc_eq]
      simp [hh2]
    dsimp only []
    rw [e1]
    dsimp only []
    rw [e2]
    dsimp only []
    rw [e3]
    dsimp only []
    rw [e4]
    exact ⟨rfl, rfl⟩
  · intro S ap h t
    constructor
    · unfold History.undo
      split
      · rfl
      · dsimp only []
        split <;> rfl
    · unfold History.redo
      split
      · rfl
      · dsimp only []
        split
        · rfl
        · split <;> rfl

/-- Witness for `branch_truncation` at concrete inputs. -/
theorem branch_truncation_witness :
    let a := Operation.modifyMessageSize 1 0 1
    let b := Operation.renameMessage 1 "x" "y"
    let c := Operation.modifyMessageComment 1 "p" "q"
    let r1 := History.apply_new Operation.applyDbc a (History.new 2) EditableDbcData.new
    let r2 := History.apply_new Operation.applyDbc b r1.2.1 r1.2.2
    let r3 := History.undo Operation.applyDbc r2.2.1 r2.2.2
    let r4 := History.apply_new Operation.applyDbc c r3.2.1 r3.2.2
    r4.2.1.ops = [a, c] ∧ r4.2.1.can_redo = false :=
  (branch_truncation 2 (by decide) (Operation.modifyMessageSize 1 0 1)
    (Operation.renameMessage 1 "x" "y") (Operation.modifyMessageComment 1 "p" "q")
    EditableDbcData.new).1

/-! ## Claim C2: history symmetry (undo then redo) -/

/-- C2 evaluated at the failing input: deleting a base-document message,
undoing, and redoing does NOT reproduce the post-delete state.  The undo
re-creates the message inside `added_messages`, so the redo merely removes
that added copy and never re-inserts the identifier into
`deleted_message_ids`; after undo+redo the message is visible again even
though every call reported success. -/
theorem delete_undo_redo_divergence :
    let bm : BaseMessage :=
      { message_id := 5, message_name := "Speed", message_size := 8, signals := [] }
    let d : DbcData :=
      { file_path := "", dbc := some { messages := [bm], comments := [] },
        error_message := "" }
    let s0 := EditableDbcData.from_dbc_data d
    let cm : MessageOverride :=
      { message_id := 5, message_name := "Speed", message_size := 8,
        transmitter := none, comment := none, signals := [] }
    let r1 := History.apply_new Operation.applyDbc (Operation.deleteMessage cm)
        (History.new 100) s0
    let r2 := History.undo Operation.applyDbc r1.2.1 r1.2.2
    let r3 := History.redo Operation.applyDbc r2.2.1 r2.2.2
    SetL.contains 5 r1.2.2.deleted_message_ids = true
    ∧ r2.1 = none
    ∧ r3.1 = none
    ∧ SetL.contains 5 r3.2.2.deleted_message_ids = false
    ∧ r3.2.2.get_all_messages.map MessageRef.message_id = [5]
    ∧ Map.lookup 5 r3.2.2.added_messages = none :=
  ⟨rfl, rfl, rfl, rfl, rfl, rfl⟩

/-! ## Claim C10: u8 conversion boundary -/

/-- C10: `get_message_size(id, original_size)` panics exactly when the
caller-supplied `original_size` exceeds 255 (the `u64 → u8` conversion runs
before the override lookup), and `MessageOverride::from_message` panics in
the same way on a parsed size above 255; for sizes at most 255 both are
total. -/
theorem get_message_size_panic_boundary (s : EditableDbcData) (id osize : Nat)
    (m : BaseMessage) :
    (255 < osize → s.get_message_size id osize = none)
    ∧ (osize ≤ 255 → (s.get_message_size id osize).isSome = true)
    ∧ (255 < m.message_size → MessageOverride.from_message m = none)
    ∧ (m.message_size ≤ 255 → (MessageOverride.from_message m).isSome = true) := by
  refine ⟨?_, ?_, ?_, ?_⟩ <;> intro h
  · simp [EditableDbcData.get_message_size, h]
  · simp [EditableDbcData.get_message_size, Nat.not_lt.mpr h]
  · simp [MessageOverride.from_message, h]
  · simp [MessageOverride.from_message, Nat.not_lt.mpr h]

/-- Witness for `get_message_size_panic_boundary` at concrete inputs. -/
theorem get_message_size_panic_boundary_witness :
    (255 < 300 ∧ EditableDbcData.new.get_message_size 1 300 = none)
    ∧ (8 ≤ 255 ∧ (EditableDbcData.new.get_message_size 1 8).isSome = true) := by
  have h := get_message_size_panic_boundary EditableDbcData.new 1 300
    { message_id := 1, message_name := "M", message_size := 8, signals := [] }
  have h8 := get_message_size_panic_boundary EditableDbcData.new 1 8
    { message_id := 1, message_name := "M", message_size := 8, signals := [] }
  exact ⟨⟨by decide, h.1 (by decide)⟩, ⟨by decide, h8.2.1 (by decide)⟩⟩

end RoxyDbc
